import Mathlib

/-!
Verification of the Hierarchical Task Forest & Priority Engine of the
gtd-firebase repository, as a shallow embedding in Lean.

Task records live in one flat Firestore collection; the UI reconstructs a
forest from the flat list, and mutation handlers write back individual
records.  We model the store as a `List Task` in document order (`addDoc`
appends), a Firestore document id as a `Nat` (document ids are opaque
non-empty strings, so JavaScript truthiness of a `parentId` value is
exactly `Option.isSome`), and each handler as a pure function from the
store (plus the in-memory snapshot it closes over, which in a sequential
run equals the store) to the new store.
-/

namespace GTD

/-- The Task record as written by the handlers in `InteractiveGTDApp.js`
(both copies) and by `import-mlo.js`.  Numeric fields that the code reads
with a `|| default` fallback are modelled as `Option Nat` so that both the
absent case and the JavaScript-falsy `0` case exist. -/
structure Task where
  id : Nat
  userId : Nat := 0
  title : String := ""
  parentId : Option Nat := none
  status : String := "next_action"
  importance : Option Nat := none
  urgency : Option Nat := none
  timeEstimate : Option Nat := none
  energyLevel : Option String := none
  isProject : Bool := false
  isRecurring : Bool := false
  recurrencePattern : Option String := none
  childCount : Nat := 0
  source : String := "manual"
  deriving Repr, DecidableEq

/-- JavaScript `x || d` for an optional numeric field: `undefined`/`null`
and `0` are falsy. -/
def jsOrNat (o : Option Nat) (d : Nat) : Nat :=
  match o with
  | none => d
  | some n => if n = 0 then d else n

/-- JavaScript truthiness of an optional string (`undefined`/`null` and
the empty string are falsy). -/
def jsTruthyStr (o : Option String) : Bool :=
  match o with
  | none => false
  | some s => s ≠ ""

/-- JavaScript `x || d` for an optional string field. -/
def jsOrStr (o : Option String) (d : String) : String :=
  match o with
  | none => d
  | some s => if s = "" then d else s

/-- JavaScript `x || null` for an optional numeric field: `0` collapses
to `null`. -/
def jsOrNullNat (o : Option Nat) : Option Nat :=
  match o with
  | none => none
  | some n => if n = 0 then none else some n

/-! ## Priority Scorer (`calculatePriorities` in `import-mlo.js`) -/

/-- The quick-win bonus exactly as computed by
`task.timeEstimate && task.timeEstimate <= 15 ? 3 : 0`
in `calculatePriorities` (`import-mlo.js`): a time estimate of `0` is
falsy in JavaScript and earns no bonus. -/
def quickWinBonus (t : Task) : ℚ :=
  match t.timeEstimate with
  | none => 0
  | some n => if n ≠ 0 ∧ n ≤ 15 then 3 else 0

/-- The energy bonus of `calculatePriorities`:
`task.energyLevel === 'low' ? 2 : task.energyLevel === 'medium' ? 1 : 0`. -/
def energyBonus (t : Task) : ℚ :=
  if t.energyLevel = some "low" then 2
  else if t.energyLevel = some "medium" then 1
  else 0

/-- The priority scalar computed by `calculatePriorities` in
`import-mlo.js`:
`(importance || 3) * 3 + (urgency || 3) * 2.5 + timeBonus + energyScore`. -/
def priorityScore (t : Task) : ℚ :=
  (jsOrNat t.importance 3 : ℚ) * 3
    + (jsOrNat t.urgency 3 : ℚ) * (5 / 2)
    + quickWinBonus t
    + energyBonus t

/-! ## Importance/urgency bucket round trip (C9)

Export (`generateMLOXML` in the exporter section of
`InteractiveGTDApp.js`) maps a 1-5 bucket to a raw 0-200 scalar; then
the importer (`calculateImportance` in `import-mlo.js`) reads the raw
scalar with `parseInt(x) || 100` and thresholds it back to a bucket. -/

/-- Export mapping `importanceToMLO` (identical to `urgencyToMLO`):
`Math.round((importance - 1) * 50)`.  On buckets 1-5 the rounding is
exact, so the embedding drops it. -/
def importanceToMLO (bucket : Nat) : Nat := (bucket - 1) * 50

/-- The importer reads the raw scalar with `parseInt(importance) || 100`:
a raw value of `0` is falsy and is replaced by the default `100`. -/
def mloRawOrDefault (raw : Nat) : Nat := if raw = 0 then 100 else raw

/-- The importer threshold chain of `calculateImportance`
(`import-mlo.js`): `imp >= 150 ? 5 : imp >= 100 ? 4 : imp >= 75 ? 3 :
imp >= 50 ? 2 : 1`. -/
def calculateImportanceBucket (raw : Nat) : Nat :=
  let imp := mloRawOrDefault raw
  if 150 ≤ imp then 5
  else if 100 ≤ imp then 4
  else if 75 ≤ imp then 3
  else if 50 ≤ imp then 2
  else 1

/-- Export a bucket to the raw scalar, then re-import it. -/
def bucketRoundTrip (bucket : Nat) : Nat :=
  calculateImportanceBucket (importanceToMLO bucket)

/-! ## Calendar dates

The handlers manipulate JavaScript `Date` values through the date-fns
functions `addDays` and `addMonths`.  We model a date as a proleptic
Gregorian calendar day (all dates in this system are CE, so `year ≥ 1`
throughout and plain `Nat` arithmetic suffices), with day arithmetic via
the standard civil-from-days / days-from-civil conversion. -/

structure Date where
  year : Nat
  month : Nat
  day : Nat
  deriving Repr, DecidableEq

/-- Day count of a civil date, measured from 0000-03-01. -/
def daysFromCivil (dt : Date) : Nat :=
  let y := if dt.month ≤ 2 then dt.year - 1 else dt.year
  let era := y / 400
  let yoe := y % 400
  let mp := (dt.month + 9) % 12
  let doy := (153 * mp + 2) / 5 + (dt.day - 1)
  let doe := yoe * 365 + yoe / 4 - yoe / 100 + doy
  era * 146097 + doe

/-- Civil date of a day count measured from 0000-03-01. -/
def civilFromDays (z : Nat) : Date :=
  let era := z / 146097
  let doe := z % 146097
  let yoe := (doe - doe / 1460 + doe / 36524 - doe / 146096) / 365
  let yr := yoe + era * 400
  let doy := doe - (365 * yoe + yoe / 4 - yoe / 100)
  let mp := (5 * doy + 2) / 153
  let d := doy - (153 * mp + 2) / 5 + 1
  let m := if mp < 10 then mp + 3 else mp - 9
  ⟨if m ≤ 2 then yr + 1 else yr, m, d⟩

/-- date-fns `addDays`. -/
def addDays (dt : Date) (n : Nat) : Date :=
  civilFromDays (daysFromCivil dt + n)

def isLeapYear (y : Nat) : Bool := y % 4 = 0 ∧ (y % 100 ≠ 0 ∨ y % 400 = 0)

def daysInMonth (y m : Nat) : Nat :=
  if m = 2 then (if isLeapYear y then 29 else 28)
  else if m = 4 ∨ m = 6 ∨ m = 9 ∨ m = 11 then 30
  else 31

/-- date-fns `addMonths`: advance the month and clamp the day-of-month to
the length of the target month. -/
def addMonths (dt : Date) (n : Nat) : Date :=
  let months := (dt.year - 1) * 12 + (dt.month - 1) + n
  let y := months / 12 + 1
  let m := months % 12 + 1
  ⟨y, m, min dt.day (daysInMonth y m)⟩

/-! ## Recurrence (`handleToggleComplete` in the interactive app) -/

/-- The `switch (task.recurrencePattern)` of `handleToggleComplete`:
daily, weekly, biweekly, monthly, with a 7-day default for anything
else. -/
def nextDueDate (pattern : String) (base : Date) : Date :=
  if pattern = "daily" then addDays base 1
  else if pattern = "weekly" then addDays base 7
  else if pattern = "biweekly" then addDays base 14
  else if pattern = "monthly" then addMonths base 1
  else addDays base 7

/-- A task record extended with the date fields `handleToggleComplete`
reads and writes.  Kept separate from `Task` so that the structural
claims (which never look at dates) can use decidable equality on small
concrete stores without carrying dates around. -/
structure DatedTask extends Task where
  dueDate : Option Date := none
  completedDate : Option Date := none
  deriving Repr, DecidableEq

/-- The successor record built by `handleToggleComplete` when a completed
task recurs: copies the static fields, sets `status: 'next_action'`,
`source: 'recurrence'`, the computed due date, and a zero child count. -/
def recurrenceSuccessor (t : DatedTask) (due : Date) (freshId : Nat) : DatedTask :=
  { id := freshId
    userId := t.userId
    title := t.title
    parentId := t.parentId
    status := "next_action"
    importance := some (jsOrNat t.importance 3)
    urgency := some (jsOrNat t.urgency 3)
    timeEstimate := jsOrNullNat t.timeEstimate
    energyLevel := some (jsOrStr t.energyLevel "medium")
    isProject := t.isProject
    isRecurring := true
    recurrencePattern := t.recurrencePattern
    childCount := 0
    source := "recurrence"
    dueDate := some due
    completedDate := none }

/-- `handleToggleComplete` (`InteractiveGTDApp.js`): flip the status of
the clicked task, stamp or clear `completedDate`, and — only when the new
status is `done` AND `task.isRecurring` AND `task.recurrencePattern` is
truthy — append one successor whose due date advances the prior due date
(or now, when absent) by the recurrence pattern. -/
def handleToggleComplete (s : List DatedTask) (t : DatedTask) (now : Date)
    (freshId : Nat) : List DatedTask :=
  let isCompleted := t.status = "done"
  let newStatus := if isCompleted then "next_action" else "done"
  let s1 := s.map fun x =>
    if x.id = t.id then
      { x with status := newStatus
               completedDate := if newStatus = "done" then some now else none }
    else x
  if newStatus = "done" ∧ t.isRecurring ∧ jsTruthyStr t.recurrencePattern then
    let base := t.dueDate.getD now
    let due := nextDueDate (t.recurrencePattern.getD "") base
    s1 ++ [recurrenceSuccessor t due freshId]
  else s1

/-! ## Inbox resolver (`getOrCreateInboxId`)

Firestore distinguishes a document whose `parentId` field is explicitly
`null` from one where the field is absent: an equality filter
`where('parentId', '==', null)` matches only documents that carry the
field with a null value.  Every copy of the resolver creates the Inbox
document without a `parentId` key, so this model keeps the three cases
of the field apart. -/

/-- The state of a document's `parentId` field: absent from the
document, explicitly null, or a reference to another document id. -/
inductive ParentField where
  | absent
  | nullValue
  | ref (id : Nat)
  deriving Repr, DecidableEq

/-- A stored document as the Inbox query sees it. -/
structure InboxDoc where
  id : Nat
  userId : Nat := 0
  title : String := ""
  parentId : ParentField := ParentField.absent
  deriving Repr, DecidableEq

/-- The query of `getOrCreateInboxId`: `userId == uid`,
`title == "<Inbox>"`, `parentId == null` — matched only by documents
whose `parentId` field exists and holds null. -/
def matchesInboxQuery (uid : Nat) (t : InboxDoc) : Bool :=
  t.userId = uid ∧ t.title = "<Inbox>" ∧ t.parentId = ParentField.nullValue

/-- The Inbox record created on a query miss, exactly as written by
every copy of the resolver (`part_009`, `InteractiveGTDApp.js`,
`part_002`, `addEmailTask.js`): the object literal carries no
`parentId` key, so the stored document's `parentId` field is absent. -/
def newInboxDoc (uid freshId : Nat) : InboxDoc :=
  { id := freshId, userId := uid, title := "<Inbox>",
    parentId := ParentField.absent }

/-- `getOrCreateInboxId`: query for the owner's `<Inbox>` with null
`parentId`; return the first match's id, or create the Inbox document
(`addDoc` appends) and return the new id. -/
def getOrCreateInboxId (uid : Nat) (s : List InboxDoc) (freshId : Nat) :
    Nat × List InboxDoc :=
  match s.find? (matchesInboxQuery uid) with
  | some t => (t.id, s)
  | none => (freshId, s ++ [newInboxDoc uid freshId])

/-! ## Structured-command (voice) handlers (`handleTaskUpdate`) -/

/-- The `case 'delete'` branch of `handleTaskUpdate`: a single
`deleteDoc(doc(db, 'tasks', taskId))` — remove the one record with that
document id and touch nothing else. -/
def voiceDelete (s : List Task) (taskId : Nat) : List Task :=
  s.filter fun t => t.id ≠ taskId

/-! ## Mutation handlers on the task forest -/

/-- Live direct children of a task id in the store, in document order. -/
def childrenOf (s : List Task) (pid : Nat) : List Task :=
  s.filter fun t => t.parentId = some pid

/-- Number of live tasks whose `parentId` is the given id. -/
def liveChildCount (s : List Task) (pid : Nat) : Nat :=
  (childrenOf s pid).length

/-- The spec invariant: every task's stored `childCount` equals the live
count of its direct children. -/
def childCountConsistent (s : List Task) : Prop :=
  ∀ t ∈ s, t.childCount = liveChildCount s t.id

instance (s : List Task) : Decidable (childCountConsistent s) := by
  unfold childCountConsistent; infer_instance

/-- `handleAddChild` (`InteractiveGTDApp.js`): append a new leaf under
`parent`, then set the parent's `childCount` to
`(task.childCount || 0) + 1` from the in-memory snapshot. -/
def handleAddChild (s : List Task) (parent : Task) (title : String)
    (freshId : Nat) : List Task :=
  let child : Task :=
    { id := freshId
      userId := parent.userId
      title := title
      parentId := some parent.id
      status := "next_action"
      importance := some 3
      urgency := some 3
      source := "manual"
      childCount := 0 }
  let s1 := s ++ [child]
  s1.map fun x =>
    if x.id = parent.id then
      { x with childCount := (match parent.childCount with | n => n) + 1 }
    else x

/-- The post-order deletion sequence of `deleteRecursive` in
`handleDelete`: delete every child subtree first, then the node itself.
The recursion runs over the in-memory children tree, which in a
sequential run is the `childrenOf` relation of the store; `fuel` bounds
the walk (the store size always suffices on the acyclic states the UI
builds). -/
def deleteOrder (s : List Task) (fuel : Nat) (t : Task) : List Nat :=
  match fuel with
  | 0 => [t.id]
  | n + 1 => ((childrenOf s t.id).flatMap fun c => deleteOrder s n c) ++ [t.id]

/-- `handleDelete` (`InteractiveGTDApp.js`): recursively delete the
subtree of `t` (children before parents), then — when `t` has a parent —
set that parent's `childCount` to `Math.max(0, (task.childCount || 1) - 1)`,
where `task` is the task being deleted. -/
def handleDelete (s : List Task) (t : Task) : List Task :=
  let delIds := deleteOrder s s.length t
  let s1 := s.filter fun x => x.id ∉ delIds
  match t.parentId with
  | none => s1
  | some pid =>
      s1.map fun x =>
        if x.id = pid then
          { x with childCount := Nat.max 0 (jsOrNat t.childCount 1 - 1) }
        else x

/-- `handleSaveFromEditor` (`InteractiveGTDApp.js`) as it acts on the
`parentId` field: a single `updateDoc(taskRef, updates)` on the edited
task.  No other record is written; in particular no `childCount` is
adjusted. -/
def saveParentFromEditor (s : List Task) (taskId : Nat)
    (newParentId : Option Nat) : List Task :=
  s.map fun x => if x.id = taskId then { x with parentId := newParentId } else x

/-! ## Forest Builder (`buildTaskTree`)

Embedded from the exporter copy in `InteractiveGTDApp.js` (the copy in
the App components additionally sorts children by title, which none of
the claims touch).  The JavaScript builds linked node objects; we
materialise the same forest by unfolding the children relation with
fuel, and prove the unfolding stable once the fuel reaches the store
size. -/

def taskIds (s : List Task) : List Nat := s.map fun t => t.id

/-- A record is pushed to the root list when its `parentId` is falsy or
refers to an id with no record in the input (`taskMap.get` misses). -/
def linksToRoot (s : List Task) (t : Task) : Bool :=
  match t.parentId with
  | none => true
  | some p => ¬ (taskIds s).contains p

def rootsOf (s : List Task) : List Task := s.filter (linksToRoot s)

inductive TaskTree where
  | node (task : Task) (children : List TaskTree)
  deriving Repr

def TaskTree.rootTask : TaskTree → Task
  | .node t _ => t

/-- Unfold the forest's children relation below one task. -/
def buildTree (s : List Task) (fuel : Nat) (t : Task) : TaskTree :=
  match fuel with
  | 0 => .node t []
  | n + 1 => .node t ((childrenOf s t.id).map (buildTree s n))

/-- `buildTaskTree`: the list of root nodes, each carrying its linked
subtree. -/
def buildTaskTree (s : List Task) : List TaskTree :=
  (rootsOf s).map (buildTree s s.length)

/-- All subtree occurrences inside a built tree (the tree itself
included). -/
def subtreesOf : TaskTree → List TaskTree
  | .node t cs => .node t cs :: cs.attach.flatMap fun c => subtreesOf c.1
termination_by tr => sizeOf tr
decreasing_by
  simp only [TaskTree.node.sizeOf_spec]
  have := List.sizeOf_lt_of_mem c.2
  omega

/-- All task ids occurring in a built tree. -/
def treeIds : TaskTree → List Nat
  | .node t cs => t.id :: cs.attach.flatMap fun c => treeIds c.1
termination_by tr => sizeOf tr
decreasing_by
  simp only [TaskTree.node.sizeOf_spec]
  have := List.sizeOf_lt_of_mem c.2
  omega

/-- `getAllDescendantIds` (`EnhancedComponents.js`): for each child, its
id plus its recursive descendant ids. -/
def getAllDescendantIds : TaskTree → List Nat
  | .node _ cs => cs.attach.flatMap fun c => c.1.rootTask.id :: getAllDescendantIds c.1
termination_by tr => sizeOf tr
decreasing_by
  rename_i t
  simp only [TaskTree.node.sizeOf_spec]
  have := List.sizeOf_lt_of_mem c.2
  omega

/-- No id repeats along any root-to-node path: each node's id is outside
the accumulated ancestor list. -/
def goodTree (banned : List Nat) : TaskTree → Bool
  | .node t cs =>
      decide (t.id ∉ banned) &&
        cs.attach.all fun c => goodTree (banned ++ [t.id]) c.1
termination_by tr => sizeOf tr
decreasing_by
  simp only [TaskTree.node.sizeOf_spec]
  have := List.sizeOf_lt_of_mem c.2
  omega

/-! ## Reparent candidates (`EnhancedComponents.js`) -/

/-- One node's contribution to
`getFlattentenedTasksForParentSelection`: skip the node — subtree
included — when its id is the edited task's id or lies in the excluded
descendant-id set, otherwise emit it followed by its children's
contributions. -/
def flattenSelTree (currentTaskId : Nat) (excluded : List Nat) :
    TaskTree → List Task
  | .node t cs =>
      if t.id = currentTaskId ∨ t.id ∈ excluded then []
      else t :: cs.attach.flatMap fun c => flattenSelTree currentTaskId excluded c.1
termination_by tr => sizeOf tr
decreasing_by
  simp only [TaskTree.node.sizeOf_spec]
  have := List.sizeOf_lt_of_mem c.2
  omega

/-- `getFlattentenedTasksForParentSelection` over a forest. -/
def flattenForParentSelection (ts : List TaskTree) (currentTaskId : Nat)
    (excluded : List Nat) : List Task :=
  ts.flatMap (flattenSelTree currentTaskId excluded)

/-- The legal "move to" targets offered by the task editor for `tr`
inside `forest`. -/
def reparentCandidates (forest : List TaskTree) (tr : TaskTree) : List Task :=
  flattenForParentSelection forest tr.rootTask.id (getAllDescendantIds tr)

/-! ## Batch Importer (`importToFirestore` in `import-mlo.js`) -/

/-- A hierarchical outline node as handed to `importToFirestore` (the
fields other than the children are irrelevant to the claims and are
collapsed into the title). -/
inductive MLOTask where
  | node (title : String) (children : List MLOTask)
  deriving Repr

/-- The flat record written for one outline node: the fields
`processNodeForBatch` computes at flatten time. -/
structure FlatRec where
  id : Nat
  parentId : Option Nat
  level : Nat
  childCount : Nat
  deriving Repr, DecidableEq

/-- `processNodeForBatch` over a sibling list, in emission order: each
node draws a fresh document id from the counter, writes its record
(carrying its parent's already-assigned id), then recurses into its
children before moving to the next sibling — depth-first pre-order. -/
def flattenImport : List MLOTask → Option Nat → Nat → Nat → Nat × List FlatRec
  | [], _, _, c => (c, [])
  | .node _ cs :: ts, p, lvl, c =>
      let r : FlatRec := ⟨c, p, lvl, cs.length⟩
      let out1 := flattenImport cs (some c) (lvl + 1) (c + 1)
      let out2 := flattenImport ts p lvl out1.1
      (out2.1, r :: (out1.2 ++ out2.2))

/-- The records written for a whole import, root nodes having
`parentId = null` and level 0, ids drawn from 0. -/
def importRecords (ts : List MLOTask) : List FlatRec :=
  (flattenImport ts none 0 0).2

/-- One step of the write-group accumulator of `importToFirestore`: add
the operation to the current group; once the group holds
`MAX_OPS_PER_BATCH = 499` operations, seal it and open a fresh empty
group.  State: (sealed group sizes, operations in the current group). -/
def batchStep (st : List Nat × Nat) : List Nat × Nat :=
  let cur := st.2 + 1
  if 499 ≤ cur then (st.1 ++ [cur], 0) else (st.1, cur)

/-- Accumulator state after `n` write operations (the importer starts
with a single empty group). -/
def batchState : Nat → List Nat × Nat
  | 0 => ([], 0)
  | n + 1 => batchStep (batchState n)

/-- The operation counts of the write groups committed for `n` records:
every sealed group followed by the still-open one. -/
def importBatchSizes (n : Nat) : List Nat :=
  (batchState n).1 ++ [(batchState n).2]

/-- Every `parentId` carried by a flattened record is a document id that
was generated for an earlier record of the emission sequence. -/
def parentsResolved (rs : List FlatRec) : Prop :=
  ∀ (k : Nat) (hk : k < rs.length) (q : Nat),
    (rs.get ⟨k, hk⟩).parentId = some q →
    ∃ (j : Nat) (hj : j < rs.length), j < k ∧ (rs.get ⟨j, hj⟩).id = q

/-- Auxiliary invariant for the flattener: inside a sibling-list
flattening that started with pending parent `p` and id counter `c`,
every record's parent reference is either the pending parent or an id
minted earlier within this very output. -/
def ParentBefore (p : Option Nat) (c : Nat) (rs : List FlatRec) : Prop :=
  ∀ (k : Nat) (hk : k < rs.length) (q : Nat),
    (rs.get ⟨k, hk⟩).parentId = some q →
    p = some q ∨ (c ≤ q ∧ q < c + k)

/-- A root-to-node walk inside the forest the Builder links up: it starts
at a record the second pass pushes to the root list, follows the
children relation, stays inside the store, and never repeats an id. -/
structure IsPath (s : List Task) (ps : List Task) : Prop where
  ne : ps ≠ []
  sub : ∀ x ∈ ps, x ∈ s
  root : ∀ h : 0 < ps.length, linksToRoot s (ps.get ⟨0, h⟩) = true
  link : ∀ i, ∀ h : i + 1 < ps.length,
    (ps.get ⟨i + 1, h⟩).parentId = some (ps.get ⟨i, Nat.lt_of_succ_lt h⟩).id
  nodup : (ps.map fun t => t.id).Nodup

/-!
# Theorems
-/

/-! ## C9 — importance/urgency bucket round trip -/

/-- C9 counterexample: re-importing the exported raw scalar of bucket 3
(`(3-1)*50 = 100`) lands in bucket 4 (`100 ≥ 100`), so export followed
by import does not preserve the bucket. -/
theorem bucketRoundTrip_three_cex : bucketRoundTrip 3 ≠ 3 := by decide

/-- C9 (amended): export-then-import maps the importance/urgency buckets
1 ↦ 4 (bucket 1 exports to raw 0, which `parseInt(x) || 100` replaces by
the default 100), 2 ↦ 2, 3 ↦ 4, 4 ↦ 5, 5 ↦ 5 — only buckets 2 and 5
survive the round trip. -/
theorem bucketRoundTrip_table :
    bucketRoundTrip 1 = 4 ∧ bucketRoundTrip 2 = 2 ∧ bucketRoundTrip 3 = 4 ∧
      bucketRoundTrip 4 = 5 ∧ bucketRoundTrip 5 = 5 := by decide

/-! ## C6 — priority score formula -/

/-- C6 counterexample: a task with `timeEstimate = 0` has a defined time
estimate of at most 15 minutes, yet `task.timeEstimate && ...` is falsy
in JavaScript, so the quick-win bonus is withheld and the score is 29.5,
not the 32.5 the claimed formula yields. -/
theorem priorityScore_zero_estimate_cex :
    priorityScore
        { id := 0, importance := some 5, urgency := some 5,
          timeEstimate := some 0, energyLevel := some "low" } = 59 / 2 ∧
      ¬ priorityScore
          { id := 0, importance := some 5, urgency := some 5,
            timeEstimate := some 0, energyLevel := some "low" } =
        (5 : ℚ) * 3 + (5 : ℚ) * (5 / 2) + 3 + 2 := by
  constructor <;> norm_num [priorityScore, quickWinBonus, energyBonus, jsOrNat]

/-- C6 (amended): for a task with defined nonzero importance and urgency
buckets, the score is `importance*3 + urgency*2.5 + quickWinBonus +
energyBonus`, where the quick-win bonus is 3 exactly when the time
estimate is defined, nonzero and at most 15 minutes, and the energy bonus
is 2 for low, 1 for medium and 0 otherwise; in particular the score of
`{importance 5, urgency 5, timeEstimate 10, energyLevel low}` is 32.5. -/
theorem priorityScore_formula :
    (∀ (t : Task) (i u : Nat), t.importance = some i → i ≠ 0 →
      t.urgency = some u → u ≠ 0 →
      priorityScore t =
        (i : ℚ) * 3 + (u : ℚ) * (5 / 2) +
          (if t.timeEstimate.any fun n => decide (1 ≤ n) && decide (n ≤ 15)
            then 3 else 0) +
          (if t.energyLevel = some "low" then 2
            else if t.energyLevel = some "medium" then 1 else 0)) ∧
      priorityScore
          { id := 0, importance := some 5, urgency := some 5,
            timeEstimate := some 10, energyLevel := some "low" } = 65 / 2 := by
  constructor
  · intro t i u hi hine hu hune
    unfold priorityScore quickWinBonus energyBonus jsOrNat
    rw [hi, hu]
    simp only [hine, hune, if_false]
    congr 1
    rcases t.timeEstimate with _ | n
    · simp [Option.any]
    · simp only [Option.any]
      by_cases h0 : n = 0
      · subst h0; simp
      · by_cases h15 : n ≤ 15
        · simp [h0, h15, Nat.one_le_iff_ne_zero]
        · simp [h0, h15]
  · norm_num [priorityScore, quickWinBonus, energyBonus, jsOrNat]

/-- Witness for `priorityScore_formula` at the spec's worked example. -/
theorem priorityScore_formula_witness :
    priorityScore
        { id := 0, importance := some 5, urgency := some 5,
          timeEstimate := some 10, energyLevel := some "low" } =
      (5 : ℚ) * 3 + (5 : ℚ) * (5 / 2) +
        (if (some 10 : Option Nat).any (fun n => decide (1 ≤ n) && decide (n ≤ 15))
          then 3 else 0) +
        (if (some "low" : Option String) = some "low" then 2
          else if (some "low" : Option String) = some "medium" then 1 else 0) := by
  exact priorityScore_formula.1
    { id := 0, importance := some 5, urgency := some 5,
      timeEstimate := some 10, energyLevel := some "low" }
    5 5 rfl (by decide) rfl (by decide)

/-! ## C10 — structured-command delete is a single-record frame -/

/-- C10: the voice/structured-command delete removes exactly the records
carrying the named document id and leaves every other record — including
the children, whose `parentId` now dangles, and the former parent with
its `childCount` — entirely unchanged; when ids are unique and the target
exists, exactly one record disappears. -/
theorem voiceDelete_single_record :
    (∀ (s : List Task) (taskId : Nat),
        (∀ t ∈ s, t.id ≠ taskId → t ∈ voiceDelete s taskId) ∧
        (∀ t ∈ voiceDelete s taskId, t ∈ s ∧ t.id ≠ taskId)) ∧
      ∀ (s : List Task) (taskId : Nat), (taskIds s).Nodup →
        ∀ t ∈ s, t.id = taskId →
          (voiceDelete s taskId).length + 1 = s.length := by
  constructor
  · intro s taskId
    constructor
    · intro t ht hne
      simpa [voiceDelete, List.mem_filter, hne] using ht
    · intro t ht
      have := List.mem_filter.mp ht
      simpa using this
  · intro s taskId hnd t ht hid
    subst hid
    induction s with
    | nil => cases ht
    | cons a rest ih =>
        simp only [taskIds, List.map_cons, List.nodup_cons] at hnd
        rcases List.mem_cons.mp ht with rfl | hmem
        · have hrest : ∀ x ∈ rest, x.id ≠ t.id := by
            intro x hx hxid
            exact hnd.1 (hxid ▸ List.mem_map_of_mem (fun y => y.id) hx)
          have h1 : voiceDelete (t :: rest) t.id = rest := by
            simp only [voiceDelete, List.filter_cons]
            have hc : (decide (t.id ≠ t.id)) = false := by simp
            rw [hc]
            simp only [Bool.false_eq_true, if_false]
            exact List.filter_eq_self.mpr fun x hx => by simp [hrest x hx]
          simp [h1]
        · have haid : a.id ≠ t.id := by
            intro h
            exact hnd.1 (h ▸ List.mem_map_of_mem (fun y => y.id) hmem)
          have hih := ih hnd.2 hmem
          have h2 : voiceDelete (a :: rest) t.id = a :: voiceDelete rest t.id := by
            simp only [voiceDelete, List.filter_cons]
            have hc : (decide (a.id ≠ t.id)) = true := by simp [haid]
            rw [hc]
            simp
          rw [h2]
          simp only [List.length_cons]
          omega

/-! ## C1 — the childCount invariant does not survive a delete -/

/-- C1 failing input: a parent (id 1, stored `childCount = 3`) with three
leaf children; the store is childCount-consistent.  Deleting the leaf
child with id 2 sets the parent's `childCount` to
`Math.max(0, (task.childCount || 1) - 1) = 0` — computed from the
*deleted task's own* `childCount` — while two live children remain, so
the invariant breaks after a single delete. -/
theorem childCount_invariant_delete_bug :
    childCountConsistent
        [{ id := 1, childCount := 3 }, { id := 2, parentId := some 1 },
          { id := 3, parentId := some 1 }, { id := 4, parentId := some 1 }] ∧
      liveChildCount
          (handleDelete
            [{ id := 1, childCount := 3 }, { id := 2, parentId := some 1 },
              { id := 3, parentId := some 1 }, { id := 4, parentId := some 1 }]
            { id := 2, parentId := some 1 }) 1 = 2 ∧
      (∃ t ∈ handleDelete
          [{ id := 1, childCount := 3 }, { id := 2, parentId := some 1 },
            { id := 3, parentId := some 1 }, { id := 4, parentId := some 1 }]
          { id := 2, parentId := some 1 }, t.id = 1 ∧ t.childCount = 0) ∧
      ¬ childCountConsistent
          (handleDelete
            [{ id := 1, childCount := 3 }, { id := 2, parentId := some 1 },
              { id := 3, parentId := some 1 }, { id := 4, parentId := some 1 }]
            { id := 2, parentId := some 1 }) := by
  refine ⟨by decide, by decide, by decide, by decide⟩

/-! ## C3 — delete removes the subtree but decrements from the wrong base -/

/-- C3 failing input: parent (id 1, `childCount = 2`) with children 2 and
3; task 2 has one descendant (id 5, so N = 1).  Deleting task 2 removes
exactly the N+1 = 2 subtree records, children before the parent
(deletion order [5, 2]), but sets the former parent's `childCount` to
`max(0, (deleted task's childCount 1) - 1) = 0` instead of the claimed
previous value minus one, 2 - 1 = 1. -/
theorem handleDelete_wrong_decrement :
    deleteOrder
        [{ id := 1, childCount := 2 },
          { id := 2, parentId := some 1, childCount := 1 },
          { id := 3, parentId := some 1 }, { id := 5, parentId := some 2 }] 4
        { id := 2, parentId := some 1, childCount := 1 } = [5, 2] ∧
      (handleDelete
          [{ id := 1, childCount := 2 },
            { id := 2, parentId := some 1, childCount := 1 },
            { id := 3, parentId := some 1 }, { id := 5, parentId := some 2 }]
          { id := 2, parentId := some 1, childCount := 1 }).map
          (fun t => t.id) = [1, 3] ∧
      (∃ t ∈ handleDelete
          [{ id := 1, childCount := 2 },
            { id := 2, parentId := some 1, childCount := 1 },
            { id := 3, parentId := some 1 }, { id := 5, parentId := some 2 }]
          { id := 2, parentId := some 1, childCount := 1 },
          t.id = 1 ∧ t.childCount = 0) ∧
      ¬ ∃ t ∈ handleDelete
          [{ id := 1, childCount := 2 },
            { id := 2, parentId := some 1, childCount := 1 },
            { id := 3, parentId := some 1 }, { id := 5, parentId := some 2 }]
          { id := 2, parentId := some 1, childCount := 1 },
          t.id = 1 ∧ t.childCount = 2 - 1 := by
  refine ⟨by decide, by decide, by decide, by decide⟩

/-! ## C2 — moves are vetted by candidate exclusion, not an error, and
touch no childCount -/

/-- C2 counterexample: store with old parent O (id 1, `childCount = 1`),
its child T (id 2), and an unrelated root P (id 3).  Saving T with new
parent P from the editor sets `T.parentId` but leaves O's `childCount`
at 1, whereas the claim requires it decremented to 0. -/
theorem saveFromEditor_no_childCount_cex :
    (∃ t ∈ saveParentFromEditor
        [{ id := 1, childCount := 1 }, { id := 2, parentId := some 1 },
          { id := 3 }] 2 (some 3), t.id = 2 ∧ t.parentId = some 3) ∧
      (∃ t ∈ saveParentFromEditor
          [{ id := 1, childCount := 1 }, { id := 2, parentId := some 1 },
            { id := 3 }] 2 (some 3), t.id = 1 ∧ t.childCount = 1) ∧
      ¬ ∃ t ∈ saveParentFromEditor
          [{ id := 1, childCount := 1 }, { id := 2, parentId := some 1 },
            { id := 3 }] 2 (some 3), t.id = 1 ∧ t.childCount = 0 := by
  refine ⟨by decide, by decide, by decide⟩

/-- Every task the selection flattener emits escapes both the edited
task's id and the excluded id set (skipped nodes are skipped with their
entire subtrees). -/
theorem mem_flattenSelTree {cur : Nat} {exc : List Nat} :
    ∀ (tr : TaskTree), ∀ p ∈ flattenSelTree cur exc tr,
      p.id ≠ cur ∧ p.id ∉ exc := by
  suffices H : ∀ (n : Nat) (tr : TaskTree), sizeOf tr ≤ n →
      ∀ p ∈ flattenSelTree cur exc tr, p.id ≠ cur ∧ p.id ∉ exc by
    intro tr
    exact H (sizeOf tr) tr le_rfl
  intro n
  induction n with
  | zero =>
      intro tr h
      cases tr with
      | node t cs =>
          simp only [TaskTree.node.sizeOf_spec] at h
          omega
  | succ n ih =>
      intro tr hle p hp
      cases tr with
      | node t cs =>
          rw [flattenSelTree] at hp
          by_cases hskip : t.id = cur ∨ t.id ∈ exc
          · rw [if_pos hskip] at hp
            cases hp
          · rw [if_neg hskip] at hp
            push_neg at hskip
            rcases List.mem_cons.mp hp with rfl | hmem
            · exact hskip
            · rcases List.mem_flatMap.mp hmem with ⟨c, _, hpc⟩
              have hlt := List.sizeOf_lt_of_mem c.2
              have hsz : sizeOf (TaskTree.node t cs) ≤ n + 1 := hle
              simp only [TaskTree.node.sizeOf_spec] at hsz
              exact ih c.1 (by omega) p hpc

/-- C2 (amended): a reparent target equal to the edited task or lying in
its descendant-id closure is never offered by the editor's candidate
list (rejection is by omission — no `InvalidParentError` value exists in
the code); saving a selected parent performs a single-record update that
sets the task's `parentId` and leaves every record's `childCount` — old
and new parent included — unchanged. -/
theorem moveTask_candidates_and_frame :
    (∀ (forest : List TaskTree) (tr : TaskTree),
        ∀ p ∈ reparentCandidates forest tr,
          p.id ≠ tr.rootTask.id ∧ p.id ∉ getAllDescendantIds tr) ∧
      ∀ (s : List Task) (taskId : Nat) (newPid : Option Nat),
        (∀ t ∈ saveParentFromEditor s taskId newPid,
            t.id = taskId → t.parentId = newPid) ∧
        (∀ t ∈ s, t.id ≠ taskId → t ∈ saveParentFromEditor s taskId newPid) ∧
        (saveParentFromEditor s taskId newPid).map
            (fun t => (t.id, t.childCount)) =
          s.map fun t => (t.id, t.childCount) := by
  constructor
  · intro forest tr p hp
    rcases List.mem_flatMap.mp hp with ⟨one, _, hone⟩
    exact mem_flattenSelTree one p hone
  · intro s taskId newPid
    refine ⟨?_, ?_, ?_⟩
    · intro t ht hid
      rcases List.mem_map.mp ht with ⟨y, hy, hyt⟩
      by_cases hcase : y.id = taskId
      · rw [if_pos hcase] at hyt
        rw [← hyt]
      · rw [if_neg hcase] at hyt
        exact absurd (hyt ▸ hid) hcase
    · intro t ht hne
      exact List.mem_map.mpr ⟨t, ht, by rw [if_neg hne]⟩
    · rw [saveParentFromEditor, List.map_map]
      refine List.map_congr_left fun x _ => ?_
      by_cases hcase : x.id = taskId
      · simp [hcase]
      · simp [hcase]

/-- Witness for `moveTask_candidates_and_frame`: in the forest
`[T [C], P]` the task P is offered as a move target for T and is indeed
neither T nor a descendant of T; saving the move updates T's parent and
keeps both tasks' childCount pairs. -/
theorem moveTask_candidates_and_frame_witness :
    (({ id := 3 } : Task).id ≠
        (TaskTree.node { id := 1 } [TaskTree.node { id := 2 } []]).rootTask.id ∧
      ({ id := 3 } : Task).id ∉
        getAllDescendantIds
          (TaskTree.node { id := 1 } [TaskTree.node { id := 2 } []])) ∧
      ({ id := 2, parentId := some 1 } : Task) ∈
        saveParentFromEditor
          [{ id := 1, childCount := 1 }, { id := 2, parentId := some 1 },
            { id := 3 }] 9 none := by
  constructor
  · refine (moveTask_candidates_and_frame.1
      [TaskTree.node { id := 1 } [TaskTree.node { id := 2 } []],
        TaskTree.node { id := 3 } []]
      (TaskTree.node { id := 1 } [TaskTree.node { id := 2 } []])
      { id := 3 } ?_)
    simp [reparentCandidates, flattenForParentSelection, flattenSelTree,
      getAllDescendantIds, TaskTree.rootTask]
  · exact (moveTask_candidates_and_frame.2
      [{ id := 1, childCount := 1 }, { id := 2, parentId := some 1 },
        { id := 3 }] 9 none).2.1
      { id := 2, parentId := some 1 } (by decide) (by decide)

/-! ## C7 — recurrence spawning -/

/-- C7 counterexample: a task with `recurrencePattern = "weekly"` but
`isRecurring = false` spawns nothing when completed — the guard is
`task.isRecurring && task.recurrencePattern`, not the pattern alone. -/
theorem toggleComplete_requires_isRecurring_cex :
    (handleToggleComplete
        [{ id := 1, recurrencePattern := some "weekly",
            dueDate := some ⟨2025, 1, 1⟩ }]
        { id := 1, recurrencePattern := some "weekly",
          dueDate := some ⟨2025, 1, 1⟩ } ⟨2025, 6, 1⟩ 9).length = 1 ∧
      ¬ (handleToggleComplete
          [{ id := 1, recurrencePattern := some "weekly",
              dueDate := some ⟨2025, 1, 1⟩ }]
          { id := 1, recurrencePattern := some "weekly",
            dueDate := some ⟨2025, 1, 1⟩ } ⟨2025, 6, 1⟩ 9).length = 1 + 1 := by
  refine ⟨by decide, by decide⟩

/-- C7 (amended): completing a not-yet-done task whose `isRecurring` flag
is set and whose recurrence pattern is a nonempty string appends exactly
one successor: status `next_action`, due date equal to the prior due date
(or now when absent) advanced by +1 day for daily, +7 for weekly, +14
for biweekly, +1 calendar month for monthly and +7 for any other pattern;
the original record is updated in place to status `done` with its due
date untouched.  Concretely, weekly from 2025-01-01 lands on
2025-01-08. -/
theorem handleToggleComplete_spawns_successor :
    (∀ (s : List DatedTask) (t : DatedTask) (now : Date) (fid : Nat)
        (pat : String),
      t.status ≠ "done" → t.isRecurring = true →
      t.recurrencePattern = some pat → pat ≠ "" →
      handleToggleComplete s t now fid =
          (s.map fun x =>
            if x.id = t.id then
              { x with status := "done", completedDate := some now }
            else x) ++
            [recurrenceSuccessor t (nextDueDate pat (t.dueDate.getD now)) fid] ∧
        (recurrenceSuccessor t (nextDueDate pat (t.dueDate.getD now))
            fid).status = "next_action" ∧
        (recurrenceSuccessor t (nextDueDate pat (t.dueDate.getD now))
            fid).dueDate = some (nextDueDate pat (t.dueDate.getD now)) ∧
        (∀ x ∈ s, x.id = t.id →
          ∃ y ∈ handleToggleComplete s t now fid,
            y.id = x.id ∧ y.status = "done" ∧ y.dueDate = x.dueDate) ∧
        nextDueDate "daily" (t.dueDate.getD now) =
          addDays (t.dueDate.getD now) 1 ∧
        nextDueDate "weekly" (t.dueDate.getD now) =
          addDays (t.dueDate.getD now) 7 ∧
        nextDueDate "biweekly" (t.dueDate.getD now) =
          addDays (t.dueDate.getD now) 14 ∧
        nextDueDate "monthly" (t.dueDate.getD now) =
          addMonths (t.dueDate.getD now) 1 ∧
        (pat ∉ ["daily", "weekly", "biweekly", "monthly"] →
          nextDueDate pat (t.dueDate.getD now) =
            addDays (t.dueDate.getD now) 7)) ∧
      nextDueDate "weekly" ⟨2025, 1, 1⟩ = ⟨2025, 1, 8⟩ := by
  constructor
  · intro s t now fid pat h1 h2 h3 h4
    have hguard :
        handleToggleComplete s t now fid =
          (s.map fun x =>
            if x.id = t.id then
              { x with status := "done", completedDate := some now }
            else x) ++
            [recurrenceSuccessor t (nextDueDate pat (t.dueDate.getD now)) fid] := by
      have htr : jsTruthyStr t.recurrencePattern = true := by
        rw [h3]
        simpa [jsTruthyStr] using h4
      simp only [handleToggleComplete, if_neg h1]
      rw [if_pos ⟨by trivial, h2, htr⟩, h3]
      simp
    refine ⟨hguard, rfl, rfl, ?_, ?_, ?_, ?_, ?_, ?_⟩
    · intro x hx hxid
      refine ⟨{ x with status := "done", completedDate := some now }, ?_, rfl, rfl, rfl⟩
      rw [hguard]
      refine List.mem_append_left _ ?_
      exact List.mem_map.mpr ⟨x, hx, by rw [if_pos hxid]⟩
    · rfl
    · rfl
    · rfl
    · rfl
    · intro hnot
      simp only [List.mem_cons, List.mem_singleton] at hnot
      push_neg at hnot
      obtain ⟨n1, n2, n3, n4⟩ := hnot
      simp [nextDueDate, n1, n2, n3, n4]
  · decide

/-- Witness for `handleToggleComplete_spawns_successor`: after completing
a weekly-recurring task due 2025-01-01, the store still holds the
original record, now `done` and with its due date untouched. -/
theorem handleToggleComplete_spawns_successor_witness :
    ∃ y ∈ handleToggleComplete
        [{ id := 1, isRecurring := true, recurrencePattern := some "weekly",
            dueDate := some ⟨2025, 1, 1⟩ }]
        { id := 1, isRecurring := true, recurrencePattern := some "weekly",
          dueDate := some ⟨2025, 1, 1⟩ } ⟨2025, 2, 3⟩ 5,
      y.id = 1 ∧ y.status = "done" ∧ y.dueDate = some ⟨2025, 1, 1⟩ :=
  (handleToggleComplete_spawns_successor.1
    [{ id := 1, isRecurring := true, recurrencePattern := some "weekly",
        dueDate := some ⟨2025, 1, 1⟩ }]
    { id := 1, isRecurring := true, recurrencePattern := some "weekly",
      dueDate := some ⟨2025, 1, 1⟩ } ⟨2025, 2, 3⟩ 5 "weekly"
    (by decide) rfl rfl (by decide)).2.2.2.1
    { id := 1, isRecurring := true, recurrencePattern := some "weekly",
      dueDate := some ⟨2025, 1, 1⟩ }
    (List.mem_singleton_self _) rfl

/-! ## C8 — batch importer: capped groups, parents resolved at flatten
time -/

/-- Closed form of the write-group accumulator: after `n` operations the
sealed groups all hold 499 operations and the open group holds the
remainder. -/
theorem batchState_eq (n : Nat) :
    batchState n = (List.replicate (n / 499) 499, n % 499) := by
  induction n with
  | zero => rfl
  | succ n ih =>
      rw [batchState, ih, batchStep]
      by_cases h : n % 499 = 498
      · have h1 : (n + 1) / 499 = n / 499 + 1 := by omega
        have h2 : (n + 1) % 499 = 0 := by omega
        have h3 : n % 499 + 1 = 499 := by omega
        rw [if_pos (by omega), h1, h2, h3, List.replicate_succ']
      · have h1 : (n + 1) / 499 = n / 499 := by omega
        have h2 : (n + 1) % 499 = n % 499 + 1 := by omega
        rw [if_neg (by omega), h1, h2]

/-- The id counter returned by the flattener advances by exactly the
number of records emitted. -/
theorem flattenImport_fst (ts : List MLOTask) (p : Option Nat) (lvl c : Nat) :
    (flattenImport ts p lvl c).1 = c + (flattenImport ts p lvl c).2.length := by
  induction ts, p, lvl, c using flattenImport.induct with
  | case1 p lvl c => simp [flattenImport]
  | case2 title cs ts p lvl c out1 ih1 ih2 =>
      have hout : out1 = flattenImport cs (some c) (lvl + 1) (c + 1) := rfl
      rw [hout] at ih2
      simp only [flattenImport]
      rw [ih2, ih1]
      simp only [List.length_cons, List.length_append]
      omega

/-- The flattener assigns document ids consecutively in emission order. -/
theorem flattenImport_ids (ts : List MLOTask) (p : Option Nat) (lvl c : Nat) :
    (flattenImport ts p lvl c).2.map (fun r => r.id) =
      List.range' c (flattenImport ts p lvl c).2.length := by
  induction ts, p, lvl, c using flattenImport.induct with
  | case1 p lvl c => simp [flattenImport]
  | case2 title cs ts p lvl c out1 ih1 ih2 =>
      have hout : out1 = flattenImport cs (some c) (lvl + 1) (c + 1) := rfl
      rw [hout] at ih2
      simp only [flattenImport]
      rw [List.map_cons, List.map_append, ih1, ih2,
        flattenImport_fst cs (some c) (lvl + 1) (c + 1)]
      rw [show c + 1 + (flattenImport cs (some c) (lvl + 1) (c + 1)).2.length =
          c + 1 + 1 * (flattenImport cs (some c) (lvl + 1) (c + 1)).2.length by ring]
      rw [List.range'_append]
      simp only [List.length_cons, List.length_append]
      rw [List.range'_succ]
      exact congrArg (fun n => c :: List.range' (c + 1) n) (Nat.add_comm _ _)

/-- Every parent reference inside one flattening call is the pending
parent id or an id minted earlier in the same output. -/
theorem flattenImport_parentBefore (ts : List MLOTask) (p : Option Nat)
    (lvl c : Nat) : ParentBefore p c (flattenImport ts p lvl c).2 := by
  induction ts, p, lvl, c using flattenImport.induct with
  | case1 p lvl c =>
      intro k hk q hq
      have h0 : (flattenImport ([] : List MLOTask) p lvl c).2.length = 0 := by
        simp [flattenImport]
      omega
  | case2 title cs ts p lvl c out1 ih1 ih2 =>
      have hout : out1 = flattenImport cs (some c) (lvl + 1) (c + 1) := rfl
      rw [hout] at ih2
      simp only [flattenImport]
      intro k hk q hq
      rw [List.get_eq_getElem] at hq
      have hfst := flattenImport_fst cs (some c) (lvl + 1) (c + 1)
      simp only [List.length_cons, List.length_append] at hk
      cases k with
      | zero =>
          rw [List.getElem_cons_zero] at hq
          exact Or.inl hq
      | succ k =>
          rw [List.getElem_cons_succ] at hq
          by_cases hksm : k < (flattenImport cs (some c) (lvl + 1) (c + 1)).2.length
          · rw [List.getElem_append_left hksm] at hq
            have hres := ih1 k hksm q (by rw [List.get_eq_getElem]; exact hq)
            rcases hres with hl | ⟨hq1, hq2⟩
            · refine Or.inr ?_
              cases hl
              constructor <;> omega
            · exact Or.inr ⟨by omega, by omega⟩
          · have hk2 : k - (flattenImport cs (some c) (lvl + 1) (c + 1)).2.length <
                (flattenImport ts p lvl
                  (flattenImport cs (some c) (lvl + 1) (c + 1)).1).2.length := by
              omega
            rw [List.getElem_append_right (by omega)] at hq
            have hres := ih2
              (k - (flattenImport cs (some c) (lvl + 1) (c + 1)).2.length) hk2 q
              (by rw [List.get_eq_getElem]; exact hq)
            rcases hres with hl | ⟨hq1, hq2⟩
            · exact Or.inl hl
            · exact Or.inr ⟨by omega, by omega⟩

/-- Flattening `n` childless outline nodes emits `n` records. -/
theorem flattenImport_replicate_len (n : Nat) (p : Option Nat) (lvl : Nat) :
    ∀ c, (flattenImport (List.replicate n (MLOTask.node "task" [])) p lvl c).2.length =
      n := by
  induction n with
  | zero => intro c; simp [flattenImport]
  | succ n ih =>
      intro c
      rw [List.replicate_succ]
      simp only [flattenImport]
      simp [ih]

/-- In a record list whose ids form the consecutive range starting at
`s`, the record at position `q` carries id `s + q`. -/
theorem id_of_map_range {rs : List FlatRec} {s q : Nat} (hq : q < rs.length)
    (hm : rs.map (fun r => r.id) = List.range' s rs.length) :
    (rs.get ⟨q, hq⟩).id = s + q := by
  have h1 : (rs.map fun r => r.id).get ⟨q, by simpa using hq⟩ =
      (rs.get ⟨q, hq⟩).id := by
    simp [List.get_eq_getElem, List.getElem_map]
  calc (rs.get ⟨q, hq⟩).id
      = (rs.map fun r => r.id).get ⟨q, by simpa using hq⟩ := h1.symm
    _ = (List.range' s rs.length).get
          (Fin.cast (by rw [hm]) ⟨q, by simpa using hq⟩) := List.get_of_eq hm _
    _ = s + q := by simp [List.get_eq_getElem, List.getElem_range']

/-- C8: every write group holds at most 499 operations; the sum of group
sizes — the committed total the importer reports — equals the record
count; every flattened record's parent id was generated earlier in the
depth-first pre-order emission; and 1000 flat records produce at least 3
groups committing 1000 operations in total. -/
theorem importer_batches_and_parents :
    (∀ n, ∀ b ∈ importBatchSizes n, b ≤ 499) ∧
      (∀ n, (importBatchSizes n).sum = n) ∧
      (∀ ts : List MLOTask, parentsResolved (importRecords ts)) ∧
      (importRecords (List.replicate 1000 (MLOTask.node "task" []))).length = 1000 ∧
      3 ≤ (importBatchSizes 1000).length ∧ (importBatchSizes 1000).sum = 1000 := by
  have hsum : ∀ n, (importBatchSizes n).sum = n := by
    intro n
    rw [importBatchSizes, batchState_eq]
    simp only [List.sum_append, List.sum_replicate, List.sum_cons, List.sum_nil,
      smul_eq_mul]
    have := Nat.div_add_mod n 499
    omega
  refine ⟨?_, hsum, ?_, ?_, ?_, hsum 1000⟩
  · intro n b hb
    rw [importBatchSizes, batchState_eq] at hb
    rcases List.mem_append.mp hb with h | h
    · rw [List.eq_of_mem_replicate h]
    · rw [List.mem_singleton.mp h]
      omega
  · intro ts k hk q hq
    have hpb := flattenImport_parentBefore ts none 0 0 k hk q hq
    rcases hpb with h | ⟨h1, h2⟩
    · cases h
    · have hqi : q < k := by omega
      have hqlen : q < (importRecords ts).length := lt_of_lt_of_le hqi (le_of_lt hk)
      refine ⟨q, hqlen, hqi, ?_⟩
      have hm := flattenImport_ids ts none 0 0
      have hid := id_of_map_range
        (by simpa [importRecords] using hqlen) hm
      simpa [importRecords] using hid
  · exact flattenImport_replicate_len 1000 none 0 0
  · rw [importBatchSizes, batchState_eq]
    simp

/-- Witness for `importer_batches_and_parents`: the sealed 499-operation
group of the 1000-record import is within the cap, and the second
record of a two-node outline (a child) points back at the first
record's id. -/
theorem importer_batches_and_parents_witness :
    (499 : Nat) ≤ 499 ∧
      ∃ (j : Nat) (hj : j < (importRecords [MLOTask.node "a" [MLOTask.node "b" []]]).length),
        j < 1 ∧ ((importRecords [MLOTask.node "a" [MLOTask.node "b" []]]).get ⟨j, hj⟩).id = 0 := by
  constructor
  · exact importer_batches_and_parents.1 1000 499
      (by rw [importBatchSizes, batchState_eq]; simp)
  · refine importer_batches_and_parents.2.2.1 [MLOTask.node "a" [MLOTask.node "b" []]]
      1 ?_ 0 ?_
    · simp [importRecords, flattenImport]
    · simp [importRecords, flattenImport, List.get_eq_getElem]

/-! ## C5 — the lazily created Inbox is invisible to its own query -/

/-- C5: resolving on an empty store creates one `<Inbox>`, but the
created document carries no `parentId` field, so the resolver's own
query `where('parentId', '==', null)` still matches zero records;
resolving again therefore creates a second `<Inbox>` — repeated
resolutions duplicate the very record the claim says is never
duplicated. -/
theorem getOrCreateInboxId_duplicates_inbox :
    ((getOrCreateInboxId 0 [] 7).2.countP fun t => t.title = "<Inbox>") = 1 ∧
      ((getOrCreateInboxId 0 [] 7).2.countP (matchesInboxQuery 0)) = 0 ∧
      ((getOrCreateInboxId 0 (getOrCreateInboxId 0 [] 7).2 9).2.countP
        fun t => t.title = "<Inbox>") = 1 + 1 := by
  refine ⟨by decide, by decide, by decide⟩

/-- Witness for `voiceDelete_single_record` on a three-record store:
deleting the middle task leaves its child (dangling parent reference
included) and its parent (stored `childCount` included) untouched. -/
theorem voiceDelete_single_record_witness :
    (({ id := 3, parentId := some 2 } : Task) ∈
        voiceDelete
          [{ id := 1, childCount := 1 }, { id := 2, parentId := some 1 },
            { id := 3, parentId := some 2 }] 2) ∧
      (voiceDelete
          [{ id := 1, childCount := 1 }, { id := 2, parentId := some 1 },
            { id := 3, parentId := some 2 }] 2).length + 1 = 3 := by
  refine ⟨?_, ?_⟩
  · exact (voiceDelete_single_record.1
      [{ id := 1, childCount := 1 }, { id := 2, parentId := some 1 },
        { id := 3, parentId := some 2 }] 2).1
      { id := 3, parentId := some 2 } (by decide) (by decide)
  · exact voiceDelete_single_record.2
      [{ id := 1, childCount := 1 }, { id := 2, parentId := some 1 },
        { id := 3, parentId := some 2 }] 2 (by decide)
      { id := 2, parentId := some 1 } (by decide) rfl

/-! ## C4 — Forest Builder: termination, no self-ancestor, root placement -/

/-- Membership in the children relation the second pass materialises. -/
theorem mem_childrenOf {s : List Task} {pid : Nat} {c : Task} :
    c ∈ childrenOf s pid ↔ c ∈ s ∧ c.parentId = some pid := by
  simp [childrenOf]

/-- A record the second pass pushes to the root list is a path by
itself. -/
theorem isPath_singleton {s : List Task} {r : Task} (hr : r ∈ rootsOf s) :
    IsPath s [r] := by
  have hmem := List.mem_filter.mp hr
  refine ⟨by simp, ?_, ?_, ?_, by simp⟩
  · intro x hx
    rw [List.mem_singleton.mp hx]
    exact hmem.1
  · intro h
    simpa using hmem.2
  · intro i h
    simp at h

/-- The id at the end of a path never already occurs among the path's
ids: with store-wide id uniqueness, a repeat would make the repeated
record both a root (or an inner node with a unique predecessor) and the
successor of the last node. -/
theorem id_not_on_path {s ps : List Task} (hnd : (taskIds s).Nodup)
    (hp : IsPath s ps) {c : Task} (hc : c ∈ s)
    (hpar : c.parentId = some ((ps.getLast hp.ne).id)) :
    c.id ∉ ps.map fun t => t.id := by
  intro hmem
  rcases List.mem_map.mp hmem with ⟨x, hx, hxid⟩
  have hxs : x ∈ s := hp.sub x hx
  have hinj := List.inj_on_of_nodup_map hnd
  have hxc : x = c := hinj hxs hc hxid
  subst hxc
  have hlast_mem : ps.getLast hp.ne ∈ s := hp.sub _ (List.getLast_mem hp.ne)
  have hin : (ps.getLast hp.ne).id ∈ taskIds s :=
    List.mem_map_of_mem (fun t => t.id) hlast_mem
  rcases List.mem_iff_get.mp hx with ⟨⟨k, hk⟩, hget⟩
  cases k with
  | zero =>
      have hlr : linksToRoot s x = true := by
        have hx0 : ps.get ⟨0, by omega⟩ = x := hget
        rw [← hx0]
        exact hp.root (by omega)
      rw [linksToRoot, hpar] at hlr
      simp only [decide_eq_true_eq] at hlr
      exact hlr (by simpa using hin)
  | succ k =>
      have hlink := hp.link k hk
      rw [hget, hpar] at hlink
      have hideq : (ps.getLast hp.ne).id =
          (ps.get ⟨k, Nat.lt_of_succ_lt hk⟩).id := Option.some.inj hlink
      have hkmem : ps.get ⟨k, Nat.lt_of_succ_lt hk⟩ ∈ ps :=
        List.get_mem ps k (Nat.lt_of_succ_lt hk)
      have heq : ps.getLast hp.ne = ps.get ⟨k, Nat.lt_of_succ_lt hk⟩ :=
        hinj hlast_mem (hp.sub _ hkmem) hideq
      have hpnd : ps.Nodup := List.Nodup.of_map _ hp.nodup
      have h0 : 0 < ps.length := by omega
      have hlastget : ps.getLast hp.ne = ps.get ⟨ps.length - 1, by omega⟩ := by
        rw [List.get_eq_getElem, List.getLast_eq_getElem]
      rw [hlastget] at heq
      have hfin := (hpnd.get_inj_iff).mp heq
      have hval : ps.length - 1 = k := congrArg Fin.val hfin
      omega

/-- Appending a child of the path's last node extends the path. -/
theorem isPath_extend {s ps : List Task} (hnd : (taskIds s).Nodup)
    (hp : IsPath s ps) {c : Task} (hc : c ∈ s)
    (hpar : c.parentId = some ((ps.getLast hp.ne).id)) :
    IsPath s (ps ++ [c]) := by
  have hnotin := id_not_on_path hnd hp hc hpar
  have h0 : 0 < ps.length := by
    cases hps : ps with
    | nil => exact absurd hps hp.ne
    | cons a l => simp
  refine ⟨by simp, ?_, ?_, ?_, ?_⟩
  · intro x hx
    rcases List.mem_append.mp hx with h | h
    · exact hp.sub x h
    · rw [List.mem_singleton.mp h]
      exact hc
  · intro h
    rw [List.get_eq_getElem, List.getElem_append_left h0]
    have := hp.root h0
    rw [List.get_eq_getElem] at this
    exact this
  · intro i h
    have hlen : i + 1 < ps.length + 1 := by
      rw [List.length_append, List.length_singleton] at h
      exact h
    rw [List.get_eq_getElem, List.get_eq_getElem]
    by_cases hi : i + 1 < ps.length
    · rw [List.getElem_append_left hi,
        List.getElem_append_left (Nat.lt_of_succ_lt hi)]
      have hl := hp.link i hi
      rw [List.get_eq_getElem, List.get_eq_getElem] at hl
      exact hl
    · have hilt : i < ps.length := by omega
      rw [List.getElem_concat_length ps c (i + 1) (by omega),
        List.getElem_append_left hilt, hpar]
      have hfin : (⟨i, hilt⟩ : Fin ps.length) = ⟨ps.length - 1, by omega⟩ :=
        Fin.ext (show i = ps.length - 1 by omega)
      have hgl : ps.getLast hp.ne = ps.get ⟨i, hilt⟩ := by
        rw [hfin, List.get_eq_getElem, List.getLast_eq_getElem]
      rw [hgl, List.get_eq_getElem]
  · rw [List.map_append]
    refine hp.nodup.append (by simp) ?_
    intro a ha hb
    rw [List.map_singleton, List.mem_singleton] at hb
    rw [hb] at ha
    exact hnotin ha

/-- Paths never repeat records, so they are no longer than the store. -/
theorem isPath_length_le {s ps : List Task} (hp : IsPath s ps) :
    ps.length ≤ s.length :=
  (List.subperm_of_subset (List.Nodup.of_map _ hp.nodup) hp.sub).length_le

/-- A child of the last node of a concat path extends it. -/
theorem isPath_extend_child {s ps : List Task} {t : Task}
    (hnd : (taskIds s).Nodup) (hp : IsPath s (ps ++ [t])) {c : Task}
    (hc : c ∈ childrenOf s t.id) : IsPath s ((ps ++ [t]) ++ [c]) := by
  obtain ⟨hcs, hcp⟩ := mem_childrenOf.mp hc
  refine isPath_extend hnd hp hcs ?_
  rw [hcp, List.getLast_concat]

/-- The id closing a concat path is absent from the prefix ids. -/
theorem last_id_fresh {ps : List Task} {t : Task}
    (h : ((ps ++ [t]).map fun x => x.id).Nodup) :
    t.id ∉ ps.map fun x => x.id := by
  rw [List.map_append, List.map_singleton] at h
  intro hmem
  rcases List.nodup_append.mp h with ⟨_, _, hdisj⟩
  exact hdisj hmem (List.mem_singleton_self _)

/-- Unfolding the builder below the end of any root path yields a tree
whose ids never repeat an ancestor id. -/
theorem buildTree_good {s : List Task} (hnd : (taskIds s).Nodup) :
    ∀ (fuel : Nat) (ps : List Task) (t : Task), IsPath s (ps ++ [t]) →
      goodTree (ps.map fun x => x.id) (buildTree s fuel t) = true := by
  intro fuel
  induction fuel with
  | zero =>
      intro ps t hp
      rw [buildTree, goodTree]
      simp [last_id_fresh hp.nodup]
  | succ n ih =>
      intro ps t hp
      rw [buildTree, goodTree]
      rw [Bool.and_eq_true]
      constructor
      · simp [last_id_fresh hp.nodup]
      · rw [List.all_eq_true]
        rintro ⟨c, hcmem⟩ _
        rcases List.mem_map.mp hcmem with ⟨ch, hch, rfl⟩
        have hp2 := isPath_extend_child hnd hp hch
        have hres := ih (ps ++ [t]) ch hp2
        rw [List.map_append, List.map_singleton] at hres
        exact hres

/-- Beyond store-size fuel the unfolding is stable: the linked forest is
finite and the traversal terminates. -/
theorem buildTree_stable {s : List Task} (hnd : (taskIds s).Nodup) :
    ∀ (f1 f2 : Nat) (ps : List Task) (t : Task), IsPath s (ps ++ [t]) →
      s.length ≤ f1 + ps.length + 1 → s.length ≤ f2 + ps.length + 1 →
      buildTree s f1 t = buildTree s f2 t := by
  intro f1
  induction f1 with
  | zero =>
      intro f2 ps t hp h1 h2
      have hlen := isPath_length_le hp
      rw [List.length_append, List.length_singleton] at hlen
      have hchild : childrenOf s t.id = [] := by
        rw [List.eq_nil_iff_forall_not_mem]
        intro c hc
        have hlen2 := isPath_length_le (isPath_extend_child hnd hp hc)
        rw [List.length_append, List.length_append, List.length_singleton,
          List.length_singleton] at hlen2
        omega
      cases f2 with
      | zero => rfl
      | succ m =>
          rw [buildTree, buildTree, hchild]
          simp
  | succ n ih =>
      intro f2 ps t hp h1 h2
      cases f2 with
      | zero =>
          have hlen := isPath_length_le hp
          rw [List.length_append, List.length_singleton] at hlen
          have hchild : childrenOf s t.id = [] := by
            rw [List.eq_nil_iff_forall_not_mem]
            intro c hc
            have hlen2 := isPath_length_le (isPath_extend_child hnd hp hc)
            rw [List.length_append, List.length_append, List.length_singleton,
              List.length_singleton] at hlen2
            omega
          rw [buildTree, buildTree, hchild]
          simp
      | succ m =>
          rw [buildTree, buildTree]
          congr 1
          refine List.map_congr_left fun ch hch => ?_
          have hp2 := isPath_extend_child hnd hp hch
          refine ih m (ps ++ [t]) ch hp2 ?_ ?_ <;>
            (rw [List.length_append, List.length_singleton]; omega)

/-- In a good tree nothing banned ever reappears. -/
theorem goodTree_not_mem_treeIds :
    ∀ (n : Nat) (tr : TaskTree), sizeOf tr ≤ n → ∀ (banned : List Nat),
      goodTree banned tr = true → ∀ x ∈ banned, x ∉ treeIds tr := by
  intro n
  induction n with
  | zero =>
      intro tr h
      cases tr with
      | node t cs =>
          simp only [TaskTree.node.sizeOf_spec] at h
          omega
  | succ n ih =>
      intro tr hle banned hg x hxb hxt
      cases tr with
      | node t cs =>
          rw [goodTree, Bool.and_eq_true, decide_eq_true_eq] at hg
          rw [treeIds] at hxt
          rcases List.mem_cons.mp hxt with rfl | hxt2
          · exact hg.1 hxb
          · rcases List.mem_flatMap.mp hxt2 with ⟨c, _, hin⟩
            have hgc : goodTree (banned ++ [t.id]) c.1 = true :=
              List.all_eq_true.mp hg.2 c (List.mem_attach _ _)
            have hsz : sizeOf c.1 ≤ n := by
              have hlt := List.sizeOf_lt_of_mem c.2
              simp only [TaskTree.node.sizeOf_spec] at hle
              omega
            exact ih c.1 hsz (banned ++ [t.id]) hgc x
              (List.mem_append_left _ hxb) hin

/-- Descendant ids are tree ids. -/
theorem descIds_subset_treeIds :
    ∀ (n : Nat) (tr : TaskTree), sizeOf tr ≤ n →
      ∀ x ∈ getAllDescendantIds tr, x ∈ treeIds tr := by
  intro n
  induction n with
  | zero =>
      intro tr h
      cases tr with
      | node t cs =>
          simp only [TaskTree.node.sizeOf_spec] at h
          omega
  | succ n ih =>
      intro tr hle x hx
      cases tr with
      | node t cs =>
          rw [getAllDescendantIds] at hx
          rw [treeIds]
          rcases List.mem_flatMap.mp hx with ⟨c, hcmem, hin⟩
          have hsz : sizeOf c.1 ≤ n := by
            have hlt := List.sizeOf_lt_of_mem c.2
            simp only [TaskTree.node.sizeOf_spec] at hle
            omega
          refine List.mem_cons_of_mem _ (List.mem_flatMap.mpr ⟨c, hcmem, ?_⟩)
          rcases List.mem_cons.mp hin with rfl | hdesc
          · cases hc1 : c.1 with
            | node t2 cs2 =>
                rw [hc1] at *
                rw [treeIds]
                exact List.mem_cons_self _ _
          · exact ih c.1 hsz x hdesc

/-- The root of a good tree is not among its own descendants. -/
theorem goodTree_root_not_desc :
    ∀ (n : Nat) (tr : TaskTree), sizeOf tr ≤ n → ∀ (banned : List Nat),
      goodTree banned tr = true →
      tr.rootTask.id ∉ getAllDescendantIds tr := by
  intro n
  induction n with
  | zero =>
      intro tr h
      cases tr with
      | node t cs =>
          simp only [TaskTree.node.sizeOf_spec] at h
          omega
  | succ n _ =>
      intro tr hle banned hg hmem
      cases tr with
      | node t cs =>
          rw [goodTree, Bool.and_eq_true] at hg
          rw [getAllDescendantIds] at hmem
          simp only [TaskTree.rootTask] at hmem
          rcases List.mem_flatMap.mp hmem with ⟨c, _, hin⟩
          have hgc : goodTree (banned ++ [t.id]) c.1 = true :=
            List.all_eq_true.mp hg.2 c (List.mem_attach _ _)
          have hsz : sizeOf c.1 ≤ n := by
            have hlt := List.sizeOf_lt_of_mem c.2
            simp only [TaskTree.node.sizeOf_spec] at hle
            omega
          have htid : t.id ∈ treeIds c.1 := by
            rcases List.mem_cons.mp hin with rfl' | hdesc
            · cases hc1 : c.1 with
              | node t2 cs2 =>
                  rw [hc1] at rfl'
                  rw [treeIds]
                  simp only [TaskTree.rootTask] at rfl'
                  rw [rfl']
                  exact List.mem_cons_self _ _
            · exact descIds_subset_treeIds (sizeOf c.1) c.1 le_rfl t.id hdesc
          exact goodTree_not_mem_treeIds (sizeOf c.1) c.1 le_rfl
            (banned ++ [t.id]) hgc t.id
            (List.mem_append_right _ (List.mem_singleton_self _)) htid

/-- All subtree occurrences of a good tree are good for some ancestor
list. -/
theorem goodTree_subtrees :
    ∀ (n : Nat) (tr : TaskTree), sizeOf tr ≤ n → ∀ (banned : List Nat),
      goodTree banned tr = true →
      ∀ st ∈ subtreesOf tr, ∃ b2, goodTree b2 st = true := by
  intro n
  induction n with
  | zero =>
      intro tr h
      cases tr with
      | node t cs =>
          simp only [TaskTree.node.sizeOf_spec] at h
          omega
  | succ n ih =>
      intro tr hle banned hg st hst
      cases tr with
      | node t cs =>
          rw [subtreesOf] at hst
          rcases List.mem_cons.mp hst with rfl | hst2
          · exact ⟨banned, hg⟩
          · rcases List.mem_flatMap.mp hst2 with ⟨c, _, hin⟩
            rw [goodTree, Bool.and_eq_true] at hg
            have hgc : goodTree (banned ++ [t.id]) c.1 = true :=
              List.all_eq_true.mp hg.2 c (List.mem_attach _ _)
            have hsz : sizeOf c.1 ≤ n := by
              have hlt := List.sizeOf_lt_of_mem c.2
              simp only [TaskTree.node.sizeOf_spec] at hle
              omega
            exact ih c.1 hsz (banned ++ [t.id]) hgc st hin

/-- C4 counterexample: two records whose parent references form a
two-cycle.  Each is appended to the other's children list, so neither
reaches the root list: `buildTaskTree` returns the empty forest rather
than placing the cycle members at the root as the claim states. -/
theorem buildTaskTree_cycle_dropped_cex :
    buildTaskTree [{ id := 1, parentId := some 2 },
        { id := 2, parentId := some 1 }] = [] ∧
      rootsOf [{ id := 1, parentId := some 2 },
        { id := 2, parentId := some 1 }] = [] :=
  ⟨rfl, by decide⟩

/-- C4 (amended): over any store with unique document ids, the Forest
Builder terminates — its fuel-indexed unfolding is already stable at
store-size fuel — and never yields a task that is its own ancestor: no
subtree of the output contains its own root id among its descendant ids.
A record reaches the root list exactly when its `parentId` is null or
dangling; cycle members, by contrast, are omitted from the returned
forest entirely rather than looping. -/
theorem buildTaskTree_acyclic :
    ∀ (s : List Task), (taskIds s).Nodup →
      (∀ fuel, s.length ≤ fuel →
        (rootsOf s).map (buildTree s fuel) = buildTaskTree s) ∧
      (∀ tr ∈ buildTaskTree s, ∀ st ∈ subtreesOf tr,
        st.rootTask.id ∉ getAllDescendantIds st) ∧
      (∀ t ∈ s, (t.parentId = none ∨
          ∃ p, t.parentId = some p ∧ p ∉ taskIds s) ↔ t ∈ rootsOf s) := by
  intro s hnd
  refine ⟨?_, ?_, ?_⟩
  · intro fuel hfuel
    rw [buildTaskTree]
    refine List.map_congr_left fun r hr => ?_
    have hp : IsPath s ([] ++ [r]) := by
      simpa using isPath_singleton hr
    exact buildTree_stable hnd fuel s.length [] r hp (by simp; omega)
      (by simp)
  · intro tr htr st hst
    rw [buildTaskTree] at htr
    rcases List.mem_map.mp htr with ⟨r, hr, rfl⟩
    have hp : IsPath s ([] ++ [r]) := by
      simpa using isPath_singleton hr
    have hgood : goodTree [] (buildTree s s.length r) = true := by
      simpa using buildTree_good hnd s.length [] r hp
    rcases goodTree_subtrees (sizeOf (buildTree s s.length r)) _ le_rfl []
        hgood st hst with ⟨b2, hb2⟩
    exact goodTree_root_not_desc (sizeOf st) st le_rfl b2 hb2
  · intro t ht
    rw [rootsOf, List.mem_filter]
    constructor
    · intro hcase
      refine ⟨ht, ?_⟩
      rcases hcase with hnone | ⟨p, hsome, hnotin⟩
      · rw [linksToRoot, hnone]
      · rw [linksToRoot, hsome]
        simpa using hnotin
    · rintro ⟨-, hlr⟩
      rw [linksToRoot] at hlr
      cases hpar : t.parentId with
      | none => exact Or.inl rfl
      | some p =>
          rw [hpar] at hlr
          refine Or.inr ⟨p, rfl, ?_⟩
          simpa using hlr

/-- Witness for `buildTaskTree_acyclic`: a three-record store with a
root, a child, and a dangling reference; fuel 5 exceeds the store size
and the unfolding agrees with `buildTaskTree`, and the dangling record
sits in the root list. -/
theorem buildTaskTree_acyclic_witness :
    ((rootsOf [{ id := 1 }, { id := 2, parentId := some 1 },
        { id := 3, parentId := some 9 }]).map
      (buildTree [{ id := 1 }, { id := 2, parentId := some 1 },
        { id := 3, parentId := some 9 }] 5) =
      buildTaskTree [{ id := 1 }, { id := 2, parentId := some 1 },
        { id := 3, parentId := some 9 }]) ∧
      ({ id := 3, parentId := some 9 } : Task) ∈
        rootsOf [{ id := 1 }, { id := 2, parentId := some 1 },
          { id := 3, parentId := some 9 }] := by
  constructor
  · exact (buildTaskTree_acyclic
      [{ id := 1 }, { id := 2, parentId := some 1 },
        { id := 3, parentId := some 9 }] (by decide)).1 5 (by decide)
  · exact ((buildTaskTree_acyclic
      [{ id := 1 }, { id := 2, parentId := some 1 },
        { id := 3, parentId := some 9 }] (by decide)).2.2
      { id := 3, parentId := some 9 } (by decide)).mp
      (Or.inr ⟨9, rfl, by decide⟩)

end GTD
